import Mathlib

/-!
Shallow embedding of the block-archiving subsystem of a Hyperledger
Fabric peer (the fabric-block-archiving repository) together with the
ledgerfsck audit tool, and proofs of the specification claims about it.

The embedding covers:
- the viper-backed configuration readers of
  core/ledger/ledgerconfig (GetMaxBlockfileSize, GetArchivingParameters,
  GetBlockArchiverURL, GetBlockArchiverDir, GetBlockStorePath);
- the archiver initialization of core/archiver/archiver.go
  (initBlockArchiverParams), acting on the package-level variables of
  the blockarchive package, modelled as an explicit state record;
- the ledgerfsck chain verifier (ledgerFsck.Verify, ReadConfiguration,
  main), modelled as a function of an abstract ledger and an abstract
  crypto environment, producing a trace of events and an outcome.
-/

/-! ## Viper configuration store

The external viper configuration singleton, modelled as one optional
value per key and per value type used by this code. A key is "set"
when its entry is present; the typed Get of an absent key returns the
zero value of that type, exactly as viper does. -/

structure ViperConfig where
  intVals : String → Option Int
  strVals : String → Option String
  boolVals : String → Option Bool

def viperGetInt (cfg : ViperConfig) (k : String) : Int :=
  (cfg.intVals k).getD 0

def viperIsSetInt (cfg : ViperConfig) (k : String) : Bool :=
  (cfg.intVals k).isSome

def viperGetString (cfg : ViperConfig) (k : String) : String :=
  (cfg.strVals k).getD ""

def viperIsSetStr (cfg : ViperConfig) (k : String) : Bool :=
  (cfg.strVals k).isSome

def viperGetBool (cfg : ViperConfig) (k : String) : Bool :=
  (cfg.boolVals k).getD false

def emptyViperConfig : ViperConfig :=
  ⟨fun _ => none, fun _ => none, fun _ => none⟩

/-! ## core/ledger/ledgerconfig

Configuration keys and defaults, verbatim from ledgerconfig. -/

def confPeerFileSystemPath : String := "peer.fileSystemPath"

def confLedgersData : String := "ledgersData"

def confChains : String := "chains"

def confMaxBlockfileSize : String := "ledger.maxBlockfileSize"

def confBlockArchiverURL : String := "ledger.blockArchiver.url"

def confBlockArchiverDir : String := "ledger.blockArchiver.dir"

def confArchiverEach : String := "peer.archiver.each"

def confArchiverKeep : String := "peer.archiver.keep"

def defaultBlockArchiverURL : String := "ledger-bank:222"

def defaultBlockArchiverDir : String := "/tmp"

def defaultArchiverEach : Int := 30

def defaultArchiverKeep : Int := 10

/-- Go path/filepath.Join of two components, simplified to plain
concatenation with a separator (path cleaning is irrelevant here). -/
def filepathJoin (a b : String) : String :=
  if a = "" then b else a ++ "/" ++ b

/-- External core/config.GetPath, modelled as the plain viper string
lookup (resolution of relative paths against the config directory is
irrelevant to every claim). -/
def configGetPath (cfg : ViperConfig) (k : String) : String :=
  viperGetString cfg k

/-- GetRootPath returns the filesystem path under which all ledger
related contents are stored. -/
def GetRootPath (cfg : ViperConfig) : String :=
  filepathJoin (configGetPath cfg confPeerFileSystemPath) confLedgersData

/-- GetBlockStorePath returns the filesystem path used for the chain
block stores. -/
def GetBlockStorePath (cfg : ViperConfig) : String :=
  filepathJoin (GetRootPath cfg) confChains

/-- GetMaxBlockfileSize returns the maximum size of a block file:
the configured value, or 64 MiB when the key is unset. -/
def GetMaxBlockfileSize (cfg : ViperConfig) : Int :=
  let maxBlockfileSize := viperGetInt cfg confMaxBlockfileSize
  if !(viperIsSetInt cfg confMaxBlockfileSize) then 64 * 1024 * 1024
  else maxBlockfileSize

/-- GetBlockArchiverURL exposes the BlockArchiverURL variable. -/
def GetBlockArchiverURL (cfg : ViperConfig) : String :=
  let url := viperGetString cfg confBlockArchiverURL
  if !(viperIsSetStr cfg confBlockArchiverURL) then defaultBlockArchiverURL
  else url

/-- GetBlockArchiverDir exposes the BlockArchiverDir variable. -/
def GetBlockArchiverDir (cfg : ViperConfig) : String :=
  let dir := viperGetString cfg confBlockArchiverDir
  if !(viperIsSetStr cfg confBlockArchiverDir) then defaultBlockArchiverDir
  else dir

/-- GetArchivingParameters exposes the parameters related to archiving
and discarding: the number of data chunks archived at each archiving
opportunity, and the least number of data chunks a peer keeps locally. -/
def GetArchivingParameters (cfg : ViperConfig) : Int × Int :=
  let numArchiving := viperGetInt cfg confArchiverEach
  let numArchiving :=
    if !(viperIsSetInt cfg confArchiverEach) then defaultArchiverEach
    else numArchiving
  let numKeeping := viperGetInt cfg confArchiverKeep
  let numKeeping :=
    if !(viperIsSetInt cfg confArchiverKeep) then defaultArchiverKeep
    else numKeeping
  (numArchiving, numKeeping)

/-! ## core/archiver and the blockarchive package variables

The blockarchive package holds its archiving parameters in
package-level variables; we model that process-wide state as an
explicit record, with initBlockArchiverParams as a state transformer.
Go zero-initializes package variables, giving the initial state. -/

structure BlockArchiveState where
  IsArchiver : Bool
  IsClient : Bool
  NumBlockfileEachArchiving : Int
  NumKeepLatestBlocks : Int
  BlockArchiverDir : String
  BlockArchiverURL : String
  BlockStorePath : String
deriving DecidableEq, Repr

/-- The zero values Go gives the blockarchive package variables before
any assignment. -/
def blockArchiveZeroState : BlockArchiveState :=
  { IsArchiver := false
    IsClient := false
    NumBlockfileEachArchiving := 0
    NumKeepLatestBlocks := 0
    BlockArchiverDir := ""
    BlockArchiverURL := ""
    BlockStorePath := "" }

/-- initBlockArchiverParams of core/archiver/archiver.go: assigns the
blockarchive package variables from the configuration. -/
def initBlockArchiverParams (cfg : ViperConfig) (s : BlockArchiveState) :
    BlockArchiveState :=
  let s := { s with IsArchiver := viperGetBool cfg "peer.archiver.enabled" }
  let s :=
    if s.IsArchiver then
      { s with NumBlockfileEachArchiving := (GetArchivingParameters cfg).1
               NumKeepLatestBlocks := (GetArchivingParameters cfg).2 }
    else
      { s with IsClient := viperGetBool cfg "peer.archiving.enabled" }
  { s with BlockArchiverDir := GetBlockArchiverDir cfg
           BlockArchiverURL := GetBlockArchiverURL cfg
           BlockStorePath := GetBlockStorePath cfg }

/-! ## ledgerfsck: data model

A Fabric block header and block, with hashes and serialized forms as
byte lists. The hash function (protoutil.BlockHeaderHash), protobuf
serialization (proto.Marshal) and the gossip message crypto service
signature check (mcs.VerifyBlock, which applies the channel policy)
are external to this repository; the verifier is parametric in them. -/

structure BlockHeader where
  Number : Nat
  PreviousHash : List Nat
  DataHash : List Nat
deriving DecidableEq, Repr

structure Block where
  Header : BlockHeader
  Data : List (List Nat)
  Metadata : List (List Nat)
deriving DecidableEq, Repr

/-- The slice of the PeerLedger interface the verifier uses:
GetBlockchainInfo (its height, or an error) and GetBlockByNumber
(none models an error return, including a failed fetch of an
archived region). -/
structure Ledger where
  infoErr : Bool
  height : Nat
  getBlock : Nat → Option Block

/-- External crypto environment of the verifier: header hashing,
protobuf marshalling (none models a marshalling error), and the
channel-policy signature check applied to a sequence number and the
marshalled block bytes. -/
structure VerifyEnv where
  headerHash : BlockHeader → List Nat
  marshal : Block → Option (List Nat)
  verifyBlock : Nat → List Nat → Bool

/-- Observable events of a verifier run: a successful block read, a
successful previous-hash comparison, a successful signature check. -/
inductive VEvent where
  | readBlock (n : Nat)
  | hashMatched (n : Nat)
  | sigVerified (n : Nat)
deriving DecidableEq, Repr

/-- The reason a verifier run fails; hashMismatch carries the block
number, the expected previous hash and the observed previous hash,
exactly the data the failure log line names. -/
inductive VFail where
  | infoErr
  | readErr (n : Nat)
  | hashMismatch (n : Nat) (expected observed : List Nat)
  | marshalErr (n : Nat)
  | sigErr (n : Nat)
deriving DecidableEq, Repr

inductive VOutcome where
  | pass
  | fail (reason : VFail)
deriving DecidableEq, Repr

/-- The loop of ledgerFsck.Verify, with the remaining iteration count
made explicit: blockIndex runs from n while it is below the ledger
height, so r iterations remain. Each iteration reads the block,
compares its PreviousHash to the running prevHash, marshals it,
verifies its signature, and advances prevHash to the header hash. -/
def verifyLoop (env : VerifyEnv) (led : Ledger) :
    Nat → Nat → List Nat → List VEvent × VOutcome
  | 0, _, _ => ([], VOutcome.pass)
  | r + 1, n, prevHash =>
    match led.getBlock n with
    | none => ([], VOutcome.fail (VFail.readErr n))
    | some b =>
      if prevHash = b.Header.PreviousHash then
        match env.marshal b with
        | none =>
          ([VEvent.readBlock n, VEvent.hashMatched n],
            VOutcome.fail (VFail.marshalErr n))
        | some bs =>
          if env.verifyBlock b.Header.Number bs then
            let rest := verifyLoop env led r (n + 1) (env.headerHash b.Header)
            (VEvent.readBlock n :: VEvent.hashMatched n ::
              VEvent.sigVerified n :: rest.1, rest.2)
          else
            ([VEvent.readBlock n, VEvent.hashMatched n],
              VOutcome.fail (VFail.sigErr n))
      else
        ([VEvent.readBlock n],
          VOutcome.fail (VFail.hashMismatch n prevHash b.Header.PreviousHash))

/-- ledgerFsck.Verify: obtain the blockchain info, read the genesis
block, seed prevHash with its header hash, then run the loop for
blockIndex = 1 up to height - 1. Returns the event trace and the
outcome. -/
def Verify (env : VerifyEnv) (led : Ledger) : List VEvent × VOutcome :=
  if led.infoErr then ([], VOutcome.fail VFail.infoErr)
  else
    match led.getBlock 0 with
    | none => ([], VOutcome.fail (VFail.readErr 0))
    | some b0 =>
      let rest := verifyLoop env led (led.height - 1) 1 (env.headerHash b0.Header)
      (VEvent.readBlock 0 :: rest.1, rest.2)

/-- The line Verify logs at the end of a run: PASS when the sweep
completes, FAIL on every failing branch before the os.Exit call. -/
def verifyOutputLine : VOutcome → String
  | VOutcome.pass => "PASS"
  | VOutcome.fail _ => "FAIL"

/-- The process exit status of the audit CLI once Verify runs: on
pass, Verify and main return normally, so the process exits 0; every
failing branch calls os.Exit(-1), observed as status 255. -/
def verifyExitStatus : VOutcome → Nat
  | VOutcome.pass => 0
  | VOutcome.fail _ => 255

/-- The block numbers of the readBlock events of a trace, in order. -/
def readsOf (evs : List VEvent) : List Nat :=
  evs.filterMap fun e =>
    match e with
    | VEvent.readBlock n => some n
    | _ => none

/-! ## ledgerfsck: command line flags

ReadConfiguration registers four flags with the Go flag package and
then parses the command line. We model the command line as a list of
(flag name, value) pairs; the flag package rejects any name that was
not registered, and otherwise the last assignment to a flag wins. -/

structure FsckConfig where
  channelName : String
  mspConfigPath : String
  mspID : String
  mspType : String
deriving DecidableEq, Repr

/-- The flag names ReadConfiguration registers. -/
def fsckFlagNames : List String :=
  ["channelName", "mspPath", "mspID", "mspType"]

/-- The flag defaults ReadConfiguration registers. -/
def fsckFlagDefaults : FsckConfig :=
  { channelName := "testChannel"
    mspConfigPath := ""
    mspID := ""
    mspType := "bccsp" }

def applyFlag (c : FsckConfig) (nv : String × String) : FsckConfig :=
  if nv.1 = "channelName" then { c with channelName := nv.2 }
  else if nv.1 = "mspPath" then { c with mspConfigPath := nv.2 }
  else if nv.1 = "mspID" then { c with mspID := nv.2 }
  else if nv.1 = "mspType" then { c with mspType := nv.2 }
  else c

/-- flag.Parse over the modelled command line: fails (the flag package
reports an unknown flag and the program stops) unless every supplied
name was registered. -/
def flagParse (args : List (String × String)) : Option FsckConfig :=
  if args.all (fun nv => fsckFlagNames.contains nv.1) then
    some (args.foldl applyFlag fsckFlagDefaults)
  else none

/-- ledgerFsck.ReadConfiguration: parse the flags, then reject a run
whose mspPath or mspID is empty. -/
def ReadConfiguration (args : List (String × String)) : Option FsckConfig :=
  match flagParse args with
  | none => none
  | some c =>
    if c.mspConfigPath = "" then none
    else if c.mspID = "" then none
    else some c

/-! ## The spec side of the verifier, for the refinement claim

Modelled from the spec, ChainVerifier procedure: read block 0 and set
prevHash to its header hash; for n = 1 up to height - 1 read block n,
assert that its previousHash equals prevHash, verify its signature
under the channel policy, and update prevHash; fail on the first
violation. -/

/-- The signature check of the spec procedure, expressed through the
same external environment: a block passes when its marshalled form
verifies under the channel policy. -/
def specSigOk (env : VerifyEnv) (b : Block) : Bool :=
  match env.marshal b with
  | some bs => env.verifyBlock b.Header.Number bs
  | none => false

def chainVerifierSpecGo (env : VerifyEnv) (led : Ledger) :
    List Nat → List Nat → VOutcome
  | _, [] => VOutcome.pass
  | prevHash, n :: rest =>
    match led.getBlock n with
    | none => VOutcome.fail (VFail.readErr n)
    | some b =>
      if b.Header.PreviousHash = prevHash then
        if specSigOk env b then
          chainVerifierSpecGo env led (env.headerHash b.Header) rest
        else VOutcome.fail (VFail.sigErr n)
      else
        VOutcome.fail (VFail.hashMismatch n prevHash b.Header.PreviousHash)

def chainVerifierSpec (env : VerifyEnv) (led : Ledger) : VOutcome :=
  match led.getBlock 0 with
  | none => VOutcome.fail (VFail.readErr 0)
  | some b0 =>
    chainVerifierSpecGo env led (env.headerHash b0.Header)
      (List.range' 1 (led.height - 1))

/-- One step of the chain being in order at block n: block n and block
n - 1 are readable, the PreviousHash of block n is the header hash of
block n - 1, and block n marshals and passes the signature check. -/
def stepOkB (env : VerifyEnv) (led : Ledger) (n : Nat) : Bool :=
  match led.getBlock n, led.getBlock (n - 1) with
  | some b, some pb =>
    (b.Header.PreviousHash == env.headerHash pb.Header) && specSigOk env b
  | _, _ => false

/-! ## Concrete fixtures for evaluation -/

/-- A concrete crypto environment: a toy header hash, total
marshalling, and a signature check that accepts. -/
def envW : VerifyEnv :=
  { headerHash := fun hd => [hd.Number + 100]
    marshal := fun b => some (b.Header.Number :: b.Header.PreviousHash)
    verifyBlock := fun _ _ => true }

def blkW0 : Block :=
  { Header := { Number := 0, PreviousHash := [], DataHash := [7] }
    Data := [], Metadata := [] }

def blkW1 : Block :=
  { Header := { Number := 1, PreviousHash := [100], DataHash := [8] }
    Data := [], Metadata := [] }

/-- A correctly linked ledger of height 2. -/
def ledW2 : Ledger :=
  { infoErr := false, height := 2
    getBlock := fun n =>
      if n = 0 then some blkW0 else if n = 1 then some blkW1 else none }

/-- A ledger of height 3 whose block 2 cannot be read. -/
def ledW3 : Ledger :=
  { infoErr := false, height := 3
    getBlock := fun n =>
      if n = 0 then some blkW0 else if n = 1 then some blkW1 else none }

/-- A ledger of height 1: only the genesis block. -/
def ledW1 : Ledger :=
  { infoErr := false, height := 1
    getBlock := fun n => if n = 0 then some blkW0 else none }

/-- A configuration that enables the archiver role. -/
def cfgArchiverOn : ViperConfig :=
  { emptyViperConfig with
    boolVals := fun k => if k = "peer.archiver.enabled" then some true else none }

/-- A configuration that enables the archiving client role. -/
def cfgClientOn : ViperConfig :=
  { emptyViperConfig with
    boolVals := fun k => if k = "peer.archiving.enabled" then some true else none }

/-- A configuration setting each and keep explicitly. -/
def cfgEachKeep : ViperConfig :=
  { emptyViperConfig with
    intVals := fun k =>
      if k = confArchiverEach then some 5
      else if k = confArchiverKeep then some 2 else none }

/-! ## Lemmas about the verifier loop -/

/-- When marshalling is total, the loop of Verify computes, block for
block, the outcome of the spec procedure over the index range it
covers. -/
theorem verifyLoop_eq_spec (env : VerifyEnv) (led : Ledger)
    (hm : ∀ b, (env.marshal b).isSome = true) :
    ∀ (r n : Nat) (ph : List Nat),
      (verifyLoop env led r n ph).2
        = chainVerifierSpecGo env led ph (List.range' n r) := by
  intro r
  induction r with
  | zero =>
    intro n ph
    simp [verifyLoop, chainVerifierSpecGo]
  | succ r ih =>
    intro n ph
    rw [List.range'_succ]
    cases hb : led.getBlock n with
    | none => simp [verifyLoop, chainVerifierSpecGo, hb]
    | some b =>
      by_cases hph : ph = b.Header.PreviousHash
      · cases hmb : env.marshal b with
        | none => exact absurd (hm b) (by simp [hmb])
        | some bs =>
          by_cases hv : env.verifyBlock b.Header.Number bs
          · simp [verifyLoop, chainVerifierSpecGo, hb, hph, specSigOk, hmb, hv, ih]
          · simp [verifyLoop, chainVerifierSpecGo, hb, hph, specSigOk, hmb, hv]
      · simp [verifyLoop, chainVerifierSpecGo, hb, hph, Ne.symm hph]

/-- The successful reads of a loop run are a contiguous ascending
range starting at the first index the loop covers. -/
theorem verifyLoop_reads (env : VerifyEnv) (led : Ledger) :
    ∀ (r n : Nat) (ph : List Nat),
      ∃ k, k ≤ r ∧ readsOf (verifyLoop env led r n ph).1 = List.range' n k := by
  intro r
  induction r with
  | zero =>
    intro n ph
    exact ⟨0, le_rfl, by simp [verifyLoop, readsOf]⟩
  | succ r ih =>
    intro n ph
    cases hb : led.getBlock n with
    | none => exact ⟨0, by omega, by simp [verifyLoop, hb, readsOf]⟩
    | some b =>
      by_cases hph : ph = b.Header.PreviousHash
      · cases hmb : env.marshal b with
        | none =>
          refine ⟨1, by omega, ?_⟩
          simp [verifyLoop, hb, hph, hmb, readsOf, List.range'_succ]
        | some bs =>
          by_cases hv : env.verifyBlock b.Header.Number bs
          · obtain ⟨k, hk, hr⟩ := ih (n + 1) (env.headerHash b.Header)
            refine ⟨k + 1, by omega, ?_⟩
            rw [List.range'_succ]
            simpa [verifyLoop, hb, hph, hmb, hv, readsOf] using hr
          · refine ⟨1, by omega, ?_⟩
            simp [verifyLoop, hb, hph, hmb, hv, readsOf, List.range'_succ]
      · refine ⟨1, by omega, ?_⟩
        simp [verifyLoop, hb, hph, readsOf, List.range'_succ]

theorem readsOf_nil : readsOf [] = [] := rfl

theorem readsOf_cons_read (n : Nat) (l : List VEvent) :
    readsOf (VEvent.readBlock n :: l) = n :: readsOf l := rfl

theorem readsOf_cons_hash (n : Nat) (l : List VEvent) :
    readsOf (VEvent.hashMatched n :: l) = readsOf l := rfl

theorem readsOf_cons_sig (n : Nat) (l : List VEvent) :
    readsOf (VEvent.sigVerified n :: l) = readsOf l := rfl

/-- If every block in the range the loop covers is readable, correctly
linked to its predecessor, and passes the signature check, the loop
reaches the end of the chain and returns pass. -/
theorem verifyLoop_pass (env : VerifyEnv) (led : Ledger) :
    ∀ (r n : Nat) (pb : Block), 1 ≤ n →
      led.getBlock (n - 1) = some pb →
      (∀ m, n ≤ m → m < n + r → stepOkB env led m = true) →
      (verifyLoop env led r n (env.headerHash pb.Header)).2 = VOutcome.pass := by
  intro r
  induction r with
  | zero =>
    intro n pb _ _ _
    simp [verifyLoop]
  | succ r ih =>
    intro n pb hn hpb hall
    have hs := hall n le_rfl (by omega)
    simp only [stepOkB] at hs
    cases hb : led.getBlock n with
    | none => rw [hb, hpb] at hs; simp at hs
    | some b =>
      rw [hb, hpb] at hs
      rw [Bool.and_eq_true, beq_iff_eq] at hs
      obtain ⟨hph, hsig⟩ := hs
      cases hmb : env.marshal b with
      | none => simp [specSigOk, hmb] at hsig
      | some bs =>
        simp only [specSigOk, hmb] at hsig
        have hrec := ih (n + 1) b (by omega) (by simpa using hb)
          (fun m h1 h2 => hall m (by omega) (by omega))
        simp [verifyLoop, hb, hph, hmb, hsig, hrec]

/-- If the loop outcome is a hash mismatch at block n, then n lies in
the covered range, the expected hash is the header hash of block n - 1,
the observed hash is the PreviousHash field of block n, the two differ,
and no block after n was read. -/
theorem verifyLoop_mismatch (env : VerifyEnv) (led : Ledger) :
    ∀ (r n0 : Nat) (pb : Block), 1 ≤ n0 →
      led.getBlock (n0 - 1) = some pb →
      ∀ n e o,
        (verifyLoop env led r n0 (env.headerHash pb.Header)).2
            = VOutcome.fail (VFail.hashMismatch n e o) →
        n0 ≤ n ∧ e ≠ o ∧
        (∃ b, led.getBlock n = some b ∧ o = b.Header.PreviousHash) ∧
        (∃ pb2, led.getBlock (n - 1) = some pb2 ∧ e = env.headerHash pb2.Header) ∧
        (∀ m, m ∈ readsOf (verifyLoop env led r n0 (env.headerHash pb.Header)).1 →
          m ≤ n) := by
  intro r
  induction r with
  | zero =>
    intro n0 pb _ _ n e o hout
    simp [verifyLoop] at hout
  | succ r ih =>
    intro n0 pb hn0 hpb n e o hout
    cases hb : led.getBlock n0 with
    | none => simp [verifyLoop, hb] at hout
    | some b =>
      by_cases hph : env.headerHash pb.Header = b.Header.PreviousHash
      · cases hmb : env.marshal b with
        | none => simp [verifyLoop, hb, hph, hmb] at hout
        | some bs =>
          by_cases hv : env.verifyBlock b.Header.Number bs
          · have hloop :
                verifyLoop env led (r + 1) n0 (env.headerHash pb.Header)
                  = (VEvent.readBlock n0 :: VEvent.hashMatched n0 ::
                      VEvent.sigVerified n0 ::
                      (verifyLoop env led r (n0 + 1) (env.headerHash b.Header)).1,
                    (verifyLoop env led r (n0 + 1) (env.headerHash b.Header)).2) := by
              simp [verifyLoop, hb, hph, hmb, hv]
            rw [hloop] at hout
            have hrec := ih (n0 + 1) b (by omega) (by simpa using hb) n e o hout
            obtain ⟨hle, hne, hobs, hexp, hreads⟩ := hrec
            refine ⟨by omega, hne, hobs, hexp, ?_⟩
            intro m hmem
            rw [hloop, readsOf_cons_read, readsOf_cons_hash, readsOf_cons_sig,
              List.mem_cons] at hmem
            rcases hmem with rfl | hmem
            · omega
            · exact hreads m hmem
          · simp [verifyLoop, hb, hph, hmb, hv] at hout
      · have hout2 : n0 = n ∧ env.headerHash pb.Header = e ∧
            b.Header.PreviousHash = o := by
          simpa [verifyLoop, hb, hph] using hout
        obtain ⟨rfl, rfl, rfl⟩ := hout2
        refine ⟨le_rfl, hph, ⟨b, hb, rfl⟩, ⟨pb, hpb, rfl⟩, ?_⟩
        intro m hmem
        have hloop :
            verifyLoop env led (r + 1) n0 (env.headerHash pb.Header)
              = ([VEvent.readBlock n0],
                VOutcome.fail (VFail.hashMismatch n0 (env.headerHash pb.Header)
                  b.Header.PreviousHash)) := by
          simp [verifyLoop, hb, hph]
        rw [hloop, readsOf_cons_read, readsOf_nil, List.mem_cons] at hmem
        rcases hmem with rfl | hmem
        · exact le_rfl
        · simp at hmem

/-- If every block before n in the covered range is in order but block
n cannot be read, the loop stops at n with a read error, having read no
block at or beyond n. -/
theorem verifyLoop_readErr (env : VerifyEnv) (led : Ledger) :
    ∀ (r n0 : Nat) (pb : Block) (n : Nat), 1 ≤ n0 →
      led.getBlock (n0 - 1) = some pb →
      n0 ≤ n → n < n0 + r →
      (∀ m, n0 ≤ m → m < n → stepOkB env led m = true) →
      led.getBlock n = none →
      (verifyLoop env led r n0 (env.headerHash pb.Header)).2
          = VOutcome.fail (VFail.readErr n) ∧
      (∀ m, m ∈ readsOf (verifyLoop env led r n0 (env.headerHash pb.Header)).1 →
        m < n) := by
  intro r
  induction r with
  | zero =>
    intro n0 pb n _ _ hle hlt _ _
    omega
  | succ r ih =>
    intro n0 pb n hn0 hpb hle hlt hok hnone
    rcases eq_or_lt_of_le hle with rfl | hlt2
    · have hloop :
          verifyLoop env led (r + 1) n0 (env.headerHash pb.Header)
            = ([], VOutcome.fail (VFail.readErr n0)) := by
        simp [verifyLoop, hnone]
      rw [hloop]
      exact ⟨rfl, fun m hmem => by simp [readsOf_nil] at hmem⟩
    · have hs := hok n0 le_rfl hlt2
      simp only [stepOkB] at hs
      cases hb : led.getBlock n0 with
      | none => rw [hb, hpb] at hs; simp at hs
      | some b =>
        rw [hb, hpb] at hs
        rw [Bool.and_eq_true, beq_iff_eq] at hs
        obtain ⟨hph, hsig⟩ := hs
        cases hmb : env.marshal b with
        | none => simp [specSigOk, hmb] at hsig
        | some bs =>
          simp only [specSigOk, hmb] at hsig
          have hrec := ih (n0 + 1) b n (by omega) (by simpa using hb)
            (by omega) (by omega)
            (fun m h1 h2 => hok m (by omega) h2) hnone
          have hloop :
              verifyLoop env led (r + 1) n0 (env.headerHash pb.Header)
                = (VEvent.readBlock n0 :: VEvent.hashMatched n0 ::
                    VEvent.sigVerified n0 ::
                    (verifyLoop env led r (n0 + 1) (env.headerHash b.Header)).1,
                  (verifyLoop env led r (n0 + 1) (env.headerHash b.Header)).2) := by
            simp [verifyLoop, hb, hph, hmb, hsig]
          rw [hloop]
          refine ⟨hrec.1, ?_⟩
          intro m hmem
          rw [readsOf_cons_read, readsOf_cons_hash, readsOf_cons_sig,
            List.mem_cons] at hmem
          rcases hmem with rfl | hmem
          · omega
          · exact hrec.2 m hmem

/-! ## Claim theorems -/

/-- C1: for every ledger of height at least 1 whose blockchain info is
available and whose blocks marshal, ledgerfsck Verify implements the
ChainVerifier procedure of the spec: it reads block 0, seeds prevHash
with the header hash of block 0, then for n = 1 up to height - 1 reads
block n, asserts that its previousHash field equals prevHash, verifies
the signature of block n against the channel policy, and updates
prevHash to the header hash of block n; moreover the blocks it reads
form an ascending contiguous range starting at 0. -/
theorem c1_verify_refines_spec (env : VerifyEnv) (led : Ledger)
    (_hh : 1 ≤ led.height) (hinfo : led.infoErr = false)
    (hm : ∀ b, (env.marshal b).isSome = true) :
    (Verify env led).2 = chainVerifierSpec env led ∧
    ∃ k, readsOf (Verify env led).1 = List.range k := by
  cases hb : led.getBlock 0 with
  | none =>
    refine ⟨?_, 0, ?_⟩ <;> simp [Verify, chainVerifierSpec, hinfo, hb, readsOf]
  | some b0 =>
    have hout : (Verify env led).2
        = (verifyLoop env led (led.height - 1) 1 (env.headerHash b0.Header)).2 := by
      simp [Verify, hinfo, hb]
    have hspec : chainVerifierSpec env led
        = chainVerifierSpecGo env led (env.headerHash b0.Header)
            (List.range' 1 (led.height - 1)) := by
      simp [chainVerifierSpec, hb]
    have htr : (Verify env led).1
        = VEvent.readBlock 0 ::
          (verifyLoop env led (led.height - 1) 1 (env.headerHash b0.Header)).1 := by
      simp [Verify, hinfo, hb]
    constructor
    · rw [hout, hspec]
      exact verifyLoop_eq_spec env led hm (led.height - 1) 1 (env.headerHash b0.Header)
    · obtain ⟨k, hk, hr⟩ :=
        verifyLoop_reads env led (led.height - 1) 1 (env.headerHash b0.Header)
      refine ⟨k + 1, ?_⟩
      rw [htr, readsOf_cons_read, hr, List.range_eq_range', List.range'_succ]

/-- Witness for c1_verify_refines_spec on a concrete two-block ledger. -/
theorem c1_witness :
    (Verify envW ledW2).2 = chainVerifierSpec envW ledW2 ∧
    ∃ k, readsOf (Verify envW ledW2).1 = List.range k :=
  c1_verify_refines_spec envW ledW2 (by decide) rfl (fun _ => rfl)

/-- C2: for every run of the audit CLI that reaches the sweep, if
every block from 1 to height - 1 passes the previous-hash comparison
and the signature verification, the run ends in pass, exits with
status 0 and emits the PASS line; and whenever the outcome is a hash
mismatch at block n, the exit status is non-zero, the FAIL line is
emitted, the failure names n together with the expected hash (the
header hash of block n - 1) and the observed hash (the PreviousHash
field of block n), which differ, and no block after n was read. -/
theorem c2_exit_behavior (env : VerifyEnv) (led : Ledger)
    (hinfo : led.infoErr = false) :
    ((∃ b0, led.getBlock 0 = some b0) →
      (∀ m, 1 ≤ m → m < led.height → stepOkB env led m = true) →
      (Verify env led).2 = VOutcome.pass ∧
      verifyExitStatus (Verify env led).2 = 0 ∧
      verifyOutputLine (Verify env led).2 = "PASS") ∧
    (∀ n e o, (Verify env led).2 = VOutcome.fail (VFail.hashMismatch n e o) →
      verifyExitStatus (Verify env led).2 ≠ 0 ∧
      verifyOutputLine (Verify env led).2 = "FAIL" ∧
      e ≠ o ∧
      (∃ b, led.getBlock n = some b ∧ o = b.Header.PreviousHash) ∧
      (∃ pb, led.getBlock (n - 1) = some pb ∧ e = env.headerHash pb.Header) ∧
      (∀ m, m ∈ readsOf (Verify env led).1 → m ≤ n)) := by
  constructor
  · rintro ⟨b0, hb0⟩ hall
    have hout : (Verify env led).2 = VOutcome.pass := by
      have hp := verifyLoop_pass env led (led.height - 1) 1 b0 le_rfl
        (by simpa using hb0) (fun m h1 h2 => hall m h1 (by omega))
      simpa [Verify, hinfo, hb0] using hp
    exact ⟨hout, by rw [hout]; rfl, by rw [hout]; rfl⟩
  · intro n e o hout
    cases hb0 : led.getBlock 0 with
    | none =>
      have : (Verify env led).2 = VOutcome.fail (VFail.readErr 0) := by
        simp [Verify, hinfo, hb0]
      rw [this] at hout
      exact absurd hout (by simp)
    | some b0 =>
      have hloop2 : (Verify env led).2
          = (verifyLoop env led (led.height - 1) 1 (env.headerHash b0.Header)).2 := by
        simp [Verify, hinfo, hb0]
      have hrec := verifyLoop_mismatch env led (led.height - 1) 1 b0 le_rfl
        (by simpa using hb0) n e o (hloop2.symm.trans hout)
      obtain ⟨hle, hne, hobs, hexp, hreads⟩ := hrec
      refine ⟨?_, by rw [hout]; rfl, hne, hobs, hexp, ?_⟩
      · rw [hout]; simp only [verifyExitStatus]; omega
      · intro m hmem
        have htr : (Verify env led).1
            = VEvent.readBlock 0 ::
              (verifyLoop env led (led.height - 1) 1 (env.headerHash b0.Header)).1 := by
          simp [Verify, hinfo, hb0]
        rw [htr, readsOf_cons_read, List.mem_cons] at hmem
        rcases hmem with rfl | hmem
        · omega
        · exact hreads m hmem

/-- Witness for c2_exit_behavior: the pass branch on a concrete
two-block ledger. -/
theorem c2_witness :
    (Verify envW ledW2).2 = VOutcome.pass ∧
    verifyExitStatus (Verify envW ledW2).2 = 0 ∧
    verifyOutputLine (Verify envW ledW2).2 = "PASS" :=
  (c2_exit_behavior envW ledW2 rfl).1 ⟨blkW0, rfl⟩
    (fun m h1 h2 => by
      rw [show ledW2.height = 2 from rfl] at h2
      have hm1 : m = 1 := by omega
      subst hm1
      decide)

/-- C6: if, with the chain in order up to block n, the read of block n
performed during the sweep returns an error (as a failed fetch of an
archived region does), the verifier aborts: the outcome is a read
failure at n, the exit status is non-zero, the FAIL line is emitted,
and no block at or after n was examined. -/
theorem c6_read_error_aborts (env : VerifyEnv) (led : Ledger) (n : Nat)
    (hinfo : led.infoErr = false) (hb0 : ∃ b0, led.getBlock 0 = some b0)
    (h1 : 1 ≤ n) (h2 : n < led.height)
    (hok : ∀ m, 1 ≤ m → m < n → stepOkB env led m = true)
    (hn : led.getBlock n = none) :
    (Verify env led).2 = VOutcome.fail (VFail.readErr n) ∧
    verifyExitStatus (Verify env led).2 ≠ 0 ∧
    verifyOutputLine (Verify env led).2 = "FAIL" ∧
    (∀ m, m ∈ readsOf (Verify env led).1 → m < n) := by
  obtain ⟨b0, hb0⟩ := hb0
  have hrec := verifyLoop_readErr env led (led.height - 1) 1 b0 n le_rfl
    (by simpa using hb0) h1 (by omega) hok hn
  have hloop2 : (Verify env led).2
      = (verifyLoop env led (led.height - 1) 1 (env.headerHash b0.Header)).2 := by
    simp [Verify, hinfo, hb0]
  have htr : (Verify env led).1
      = VEvent.readBlock 0 ::
        (verifyLoop env led (led.height - 1) 1 (env.headerHash b0.Header)).1 := by
    simp [Verify, hinfo, hb0]
  have hout : (Verify env led).2 = VOutcome.fail (VFail.readErr n) :=
    hloop2.trans hrec.1
  refine ⟨hout, ?_, by rw [hout]; rfl, ?_⟩
  · rw [hout]; simp only [verifyExitStatus]; omega
  · intro m hmem
    rw [htr, readsOf_cons_read, List.mem_cons] at hmem
    rcases hmem with rfl | hmem
    · omega
    · exact hrec.2 m hmem

/-- Witness for c6_read_error_aborts: a height-3 ledger whose block 2
cannot be read. -/
theorem c6_witness :
    (Verify envW ledW3).2 = VOutcome.fail (VFail.readErr 2) ∧
    verifyOutputLine (Verify envW ledW3).2 = "FAIL" :=
  have h := c6_read_error_aborts envW ledW3 2 rfl ⟨blkW0, rfl⟩ (by omega)
    (by rw [show ledW3.height = 3 from rfl]; omega)
    (fun m h1 h2 => by
      have hm1 : m = 1 := by omega
      subst hm1
      decide)
    rfl
  ⟨h.1, h.2.2.1⟩

/-- C9: the verifier never verifies the signature of the genesis
block: on a ledger of height 1 it reads only block 0 and reports a
pass with exit status 0, its trace holding no signature verification
and no hash comparison. -/
theorem c9_height_one_pass (env : VerifyEnv) (led : Ledger) (b0 : Block)
    (hh : led.height = 1) (hinfo : led.infoErr = false)
    (hb : led.getBlock 0 = some b0) :
    Verify env led = ([VEvent.readBlock 0], VOutcome.pass) ∧
    verifyExitStatus (Verify env led).2 = 0 ∧
    (∀ n, VEvent.sigVerified n ∉ (Verify env led).1) ∧
    (∀ n, VEvent.hashMatched n ∉ (Verify env led).1) := by
  have hv : Verify env led = ([VEvent.readBlock 0], VOutcome.pass) := by
    simp [Verify, hinfo, hb, hh, verifyLoop]
  refine ⟨hv, by rw [hv]; rfl, ?_, ?_⟩ <;> intro n <;> rw [hv] <;> simp

/-- Witness for c9_height_one_pass on a concrete height-1 ledger. -/
theorem c9_witness :
    Verify envW ledW1 = ([VEvent.readBlock 0], VOutcome.pass) ∧
    verifyExitStatus (Verify envW ledW1).2 = 0 :=
  have h := c9_height_one_pass envW ledW1 blkW0 rfl rfl rfl
  ⟨h.1, h.2.1⟩

/-- C3: after archiver initialization from the zero state, the node is
an archiver exactly when peer.archiver.enabled is true, a fetch-on-miss
client exactly when peer.archiver.enabled is false and
peer.archiving.enabled is true, and never both at once. -/
theorem c3_roles_from_config (cfg : ViperConfig) :
    ((initBlockArchiverParams cfg blockArchiveZeroState).IsArchiver
        = viperGetBool cfg "peer.archiver.enabled") ∧
    ((initBlockArchiverParams cfg blockArchiveZeroState).IsClient
        = (!viperGetBool cfg "peer.archiver.enabled"
            && viperGetBool cfg "peer.archiving.enabled")) ∧
    (((initBlockArchiverParams cfg blockArchiveZeroState).IsArchiver
        && (initBlockArchiverParams cfg blockArchiveZeroState).IsClient)
      = false) := by
  cases h1 : viperGetBool cfg "peer.archiver.enabled" <;>
    cases h2 : viperGetBool cfg "peer.archiving.enabled" <;>
      simp [initBlockArchiverParams, blockArchiveZeroState, h1, h2]

/-- C4: GetArchivingParameters returns the configured
peer.archiver.each value (default 30) as its first component, the
per-sweep offload count, and the configured peer.archiver.keep value
(default 10) as its second component, the keep count. -/
theorem c4_archiving_parameters (cfg : ViperConfig) :
    GetArchivingParameters cfg
      = ((cfg.intVals confArchiverEach).getD 30,
         (cfg.intVals confArchiverKeep).getD 10) := by
  cases h1 : cfg.intVals confArchiverEach <;>
    cases h2 : cfg.intVals confArchiverKeep <;>
      simp [GetArchivingParameters, viperGetInt, viperIsSetInt, h1, h2,
        defaultArchiverEach, defaultArchiverKeep]

/-- C5: GetMaxBlockfileSize returns the configured
ledger.maxBlockfileSize value when set and exactly 64 * 1024 * 1024
bytes when unset. -/
theorem c5_max_blockfile_size (cfg : ViperConfig) :
    GetMaxBlockfileSize cfg
      = (cfg.intVals confMaxBlockfileSize).getD (64 * 1024 * 1024) := by
  cases h : cfg.intVals confMaxBlockfileSize <;>
    simp [GetMaxBlockfileSize, viperGetInt, viperIsSetInt, h]

/-- C10: the archive endpoint defaults to the fixed string
ledger-bank:222 and the archive root directory defaults to /tmp when
the keys ledger.blockArchiver.url and ledger.blockArchiver.dir are
unset; when set, the configured values are returned unchanged. -/
theorem c10_archiver_url_dir_defaults (cfg : ViperConfig) :
    GetBlockArchiverURL cfg
        = (cfg.strVals confBlockArchiverURL).getD "ledger-bank:222" ∧
    GetBlockArchiverDir cfg
        = (cfg.strVals confBlockArchiverDir).getD "/tmp" := by
  constructor
  · cases h : cfg.strVals confBlockArchiverURL <;>
      simp [GetBlockArchiverURL, viperGetString, viperIsSetStr, h,
        defaultBlockArchiverURL]
  · cases h : cfg.strVals confBlockArchiverDir <;>
      simp [GetBlockArchiverDir, viperGetString, viperIsSetStr, h,
        defaultBlockArchiverDir]

/-- C7 is refuted: the audit CLI registers no flags named channel,
msp-path or msp-id, so a run supplying exactly these three flags is
rejected by flag parsing instead of proceeding. -/
theorem c7_counterexample :
    ReadConfiguration
        [("channel", "mychannel"), ("msp-path", "/etc/msp"),
          ("msp-id", "Org1MSP")] = none ∧
    fsckFlagNames.contains "channel" = false ∧
    fsckFlagNames.contains "msp-path" = false ∧
    fsckFlagNames.contains "msp-id" = false := by
  decide

/-- C7 (amended): the audit CLI takes the channel name, the MSP folder
path and the MSP identity under the flag names channelName, mspPath
and mspID (mspType defaults to bccsp), and a run supplying these three
flags with nonempty mspPath and mspID values proceeds past argument
parsing. -/
theorem c7_flag_names (c p i : String) (hp : p ≠ "") (hi : i ≠ "") :
    ReadConfiguration [("channelName", c), ("mspPath", p), ("mspID", i)]
      = some { channelName := c, mspConfigPath := p, mspID := i,
               mspType := "bccsp" } := by
  have hparse : flagParse [("channelName", c), ("mspPath", p), ("mspID", i)]
      = some { channelName := c, mspConfigPath := p, mspID := i,
               mspType := "bccsp" } := rfl
  unfold ReadConfiguration
  rw [hparse]
  simp [hp, hi]

/-- Witness for c7_flag_names at a concrete command line. -/
theorem c7_witness :
    ReadConfiguration
        [("channelName", "mychannel"), ("mspPath", "/msp"), ("mspID", "Org1MSP")]
      = some { channelName := "mychannel", mspConfigPath := "/msp",
               mspID := "Org1MSP", mspType := "bccsp" } :=
  c7_flag_names "mychannel" "/msp" "Org1MSP" (by decide) (by decide)

/-- C8 is refuted: the archiver/client role is not a per-store value
and selecting it does mutate process-wide state: after initializing as
archiver, a second initialization as client in the same process
overwrites the shared role, and the first initialization already
changed the shared blockarchive variables away from their zero values. -/
theorem c8_counterexample :
    (initBlockArchiverParams cfgArchiverOn blockArchiveZeroState).IsArchiver
      = true ∧
    (initBlockArchiverParams cfgClientOn
        (initBlockArchiverParams cfgArchiverOn blockArchiveZeroState)).IsArchiver
      = false ∧
    (initBlockArchiverParams cfgClientOn
        (initBlockArchiverParams cfgArchiverOn blockArchiveZeroState)).IsClient
      = true ∧
    (initBlockArchiverParams cfgArchiverOn blockArchiveZeroState).BlockArchiverURL
      = "ledger-bank:222" ∧
    blockArchiveZeroState.BlockArchiverURL = "" := by
  decide

/-- C8 (amended): the archiver/client role lives in process-wide
blockarchive package variables assigned by initBlockArchiverParams
from the global configuration; every initialization overwrites the one
shared IsArchiver flag with the value of peer.archiver.enabled in the
configuration at hand, so after a second initialization the process
observes only the second role. -/
theorem c8_shared_role_state (cfg1 cfg2 : ViperConfig) (s0 : BlockArchiveState) :
    ((initBlockArchiverParams cfg1 s0).IsArchiver
        = viperGetBool cfg1 "peer.archiver.enabled") ∧
    ((initBlockArchiverParams cfg2 (initBlockArchiverParams cfg1 s0)).IsArchiver
        = viperGetBool cfg2 "peer.archiver.enabled") := by
  have key : ∀ (cfg : ViperConfig) (s : BlockArchiveState),
      (initBlockArchiverParams cfg s).IsArchiver
        = viperGetBool cfg "peer.archiver.enabled" := by
    intro cfg s
    cases h : viperGetBool cfg "peer.archiver.enabled" <;>
      simp [initBlockArchiverParams, h]
  exact ⟨key cfg1 s0, key cfg2 _⟩
